import Mathlib

/-!
Verification of the polybot 5-minute sweep bot against its specification.

The Rust sources are shallowly embedded: `f64` money/price/size values become
`ℚ` (the code validates away NaN/infinite values before any arithmetic the
claims speak about, so the finite-rational embedding is exact on every path
considered), `i64`/`u64` become `ℤ`/`ℕ` (the values involved never approach
the 64-bit range), `HashMap`s become association lists, and the CLOB API is an
oracle parameter: `submit` maps a call index and the order data to the result
`place_fok_buy` would return (`Except String (Option OrderResponse)` mirrors
Rust's `Result<Option<OrderResponse>>`).  Loops become structural recursion;
`break`/`continue` become the corresponding early returns.
-/

namespace Polybot

/-- `(x * 100.0).floor() / 100.0` — round down to 2 decimal places, used by
both the executor (executor.rs line 161) and the sweep (strategy.rs line 281). -/
def floor2 (x : ℚ) : ℚ := (Int.floor (x * 100) : ℚ) / 100

/-- Substring test on character lists, the semantics of Rust's
`str::contains(&str)`. -/
def list_contains_sub (needle : List Char) : List Char → Bool
  | [] => needle.isEmpty
  | c :: rest => needle.isPrefixOf (c :: rest) || list_contains_sub needle rest

/-- `hay.contains(needle)` on strings. -/
def str_contains (hay needle : String) : Bool := list_contains_sub needle.data hay.data

-- ── executor.rs : types ────────────────────────────────────────────────

inductive Side where
  | buy
  | sell
deriving DecidableEq

inductive IntentOrderType where
  | fok
  | gtc
deriving DecidableEq

inductive FillStatus where
  | filled
  | notFillable
  | rejected
  | networkError
deriving DecidableEq

/-- executor.rs `OrderIntent`. -/
structure OrderIntent where
  token_id : String
  side : Side
  price : ℚ
  size : ℚ
  order_type : IntentOrderType
  strategy : String
  reason : String
deriving DecidableEq

/-- api.rs `OrderResponse`. -/
structure OrderResponse where
  order_id : Option String
  status : String
  message : Option String
deriving DecidableEq

/-- executor.rs `ExecutionResult`. -/
structure ExecutionResult where
  intent : OrderIntent
  status : FillStatus
  filled_size : ℚ
  filled_price : ℚ
  order_id : Option String
deriving DecidableEq

/-- executor.rs `ExecutorConfig`. -/
structure ExecutorConfig where
  max_batch_cost : ℚ
  max_price : ℚ
  min_size : ℚ
  inter_order_delay_ms : ℕ
  max_consecutive_misses : ℕ
  live : Bool
deriving DecidableEq

/-- executor.rs `impl Default for ExecutorConfig`. -/
def ExecutorConfig.default_config : ExecutorConfig :=
  ⟨500, 999/1000, 1/100, 50, 3, false⟩

/-- Which rule of `OrderExecutor::validate` fired (the Rust code returns the
rejection reason as a formatted string; only its identity matters here). -/
inductive RejectReason where
  | invalidPrice
  | invalidSize
  | priceAboveMax
  | sizeBelowMin
  | budgetExhausted
  | emptyTokenId
  | sideNotBuy
  | orderTypeNotFok
deriving DecidableEq

/-- executor.rs lines 245-272, `OrderExecutor::validate`.  The `is_nan` /
`is_infinite` disjuncts of the first two rules are vacuous over `ℚ`. -/
def validate (cfg : ExecutorConfig) (intent : OrderIntent) (current_cost : ℚ) :
    Option RejectReason :=
  if intent.price ≤ 0 then some .invalidPrice
  else if intent.size ≤ 0 then some .invalidSize
  else if cfg.max_price < intent.price then some .priceAboveMax
  else if intent.size < cfg.min_size then some .sizeBelowMin
  else if cfg.max_batch_cost ≤ current_cost then some .budgetExhausted
  else if intent.token_id = "" then some .emptyTokenId
  else if intent.side ≠ Side.buy then some .sideNotBuy
  else if intent.order_type ≠ IntentOrderType.fok then some .orderTypeNotFok
  else none

/-- executor.rs lines 294-298: classification of an `Err` from
`place_fok_buy` inside `execute_live`. -/
def exec_err_is_network (msg : String) : Bool :=
  let s := msg.toLower
  str_contains s "network" || str_contains s "timeout" || str_contains s "connection"

/-- executor.rs lines 275-308, `OrderExecutor::execute_live`, as a function of
the API call's outcome. -/
def execute_live (intent : OrderIntent) (actual_size : ℚ)
    (api_result : Except String (Option OrderResponse)) : ExecutionResult :=
  match api_result with
  | .ok (some resp) => ⟨intent, .filled, actual_size, intent.price, resp.order_id⟩
  | .ok none => ⟨intent, .notFillable, 0, 0, none⟩
  | .error e =>
    ⟨intent, if exec_err_is_network e then .networkError else .rejected, 0, 0, none⟩

/-- executor.rs lines 311-327, `OrderExecutor::execute_paper`: always fills at
the requested price. -/
def execute_paper (intent : OrderIntent) (actual_size : ℚ) : ExecutionResult :=
  ⟨intent, .filled, actual_size, intent.price, none⟩

/-- The `ExecutionResult` pushed for a rejected intent
(executor.rs lines 143-149 and 165-171). -/
def rejected_result (intent : OrderIntent) : ExecutionResult :=
  ⟨intent, .rejected, 0, 0, none⟩

/-- executor.rs lines 153-161: cap the intent size to the remaining budget and
round down to 2 decimal places. -/
def executor_capped_size (cfg : ExecutorConfig) (total_cost : ℚ) (intent : OrderIntent) : ℚ :=
  floor2 (min intent.size
    (if 0 < intent.price then (cfg.max_batch_cost - total_cost) / intent.price else 0))

/-- The oracle for live order placement: call index, intent and submitted size
to the result of `PolymarketApi::place_fok_buy`. -/
def SubmitOracle : Type := ℕ → OrderIntent → ℚ → Except String (Option OrderResponse)

/-- executor.rs lines 176-180: live or paper execution of one order. -/
def step_result (cfg : ExecutorConfig) (submit : SubmitOracle) (calls : ℕ)
    (intent : OrderIntent) (actual_size : ℚ) : ExecutionResult :=
  if cfg.live then execute_live intent actual_size (submit calls intent actual_size)
  else execute_paper intent actual_size

/-- Bookkeeping: the network submission made by one executed order (empty in
paper mode, where no API call happens). -/
def submission_entry (cfg : ExecutorConfig) (intent : OrderIntent) (actual_size : ℚ) :
    List (OrderIntent × ℚ) :=
  if cfg.live then [(intent, actual_size)] else []

/-- Observable outcome of `execute_batch`: the returned results, the final
`total_cost` accumulator, and the list of (intent, size) actually submitted to
the API. -/
structure BatchOut where
  results : List ExecutionResult
  total_cost : ℚ
  submissions : List (OrderIntent × ℚ)
deriving DecidableEq

/-- executor.rs lines 139-231, the `for intent in intents` loop of
`OrderExecutor::execute_batch`, with state (call counter, `total_cost`,
`consecutive_misses`).  `break` returns the results accumulated so far;
`continue` recurses without post-order checks. -/
def execute_batch_aux (cfg : ExecutorConfig) (submit : SubmitOracle) :
    List OrderIntent → ℕ → ℚ → ℕ → BatchOut
  | [], _, total_cost, _ => ⟨[], total_cost, []⟩
  | intent :: rest, calls, total_cost, misses =>
    match validate cfg intent total_cost with
    | some _ =>
      let o := execute_batch_aux cfg submit rest calls total_cost misses
      ⟨rejected_result intent :: o.results, o.total_cost, o.submissions⟩
    | none =>
      if executor_capped_size cfg total_cost intent < cfg.min_size then
        let o := execute_batch_aux cfg submit rest calls total_cost misses
        ⟨rejected_result intent :: o.results, o.total_cost, o.submissions⟩
      else
        match (step_result cfg submit calls intent
            (executor_capped_size cfg total_cost intent)).status with
        | .networkError =>
          ⟨[step_result cfg submit calls intent (executor_capped_size cfg total_cost intent)],
           total_cost,
           submission_entry cfg intent (executor_capped_size cfg total_cost intent)⟩
        | .filled =>
          if cfg.max_batch_cost ≤ total_cost +
              (step_result cfg submit calls intent
                (executor_capped_size cfg total_cost intent)).filled_size *
              (step_result cfg submit calls intent
                (executor_capped_size cfg total_cost intent)).filled_price then
            ⟨[step_result cfg submit calls intent (executor_capped_size cfg total_cost intent)],
             total_cost +
               (step_result cfg submit calls intent
                 (executor_capped_size cfg total_cost intent)).filled_size *
               (step_result cfg submit calls intent
                 (executor_capped_size cfg total_cost intent)).filled_price,
             submission_entry cfg intent (executor_capped_size cfg total_cost intent)⟩
          else if cfg.max_consecutive_misses ≤ 0 then
            ⟨[step_result cfg submit calls intent (executor_capped_size cfg total_cost intent)],
             total_cost +
               (step_result cfg submit calls intent
                 (executor_capped_size cfg total_cost intent)).filled_size *
               (step_result cfg submit calls intent
                 (executor_capped_size cfg total_cost intent)).filled_price,
             submission_entry cfg intent (executor_capped_size cfg total_cost intent)⟩
          else
            let o := execute_batch_aux cfg submit rest (calls + 1)
              (total_cost +
                (step_result cfg submit calls intent
                  (executor_capped_size cfg total_cost intent)).filled_size *
                (step_result cfg submit calls intent
                  (executor_capped_size cfg total_cost intent)).filled_price) 0
            ⟨step_result cfg submit calls intent (executor_capped_size cfg total_cost intent)
               :: o.results,
             o.total_cost,
             submission_entry cfg intent (executor_capped_size cfg total_cost intent)
               ++ o.submissions⟩
        | .notFillable =>
          if cfg.max_batch_cost ≤ total_cost then
            ⟨[step_result cfg submit calls intent (executor_capped_size cfg total_cost intent)],
             total_cost,
             submission_entry cfg intent (executor_capped_size cfg total_cost intent)⟩
          else if cfg.max_consecutive_misses ≤ misses + 1 then
            ⟨[step_result cfg submit calls intent (executor_capped_size cfg total_cost intent)],
             total_cost,
             submission_entry cfg intent (executor_capped_size cfg total_cost intent)⟩
          else
            let o := execute_batch_aux cfg submit rest (calls + 1) total_cost (misses + 1)
            ⟨step_result cfg submit calls intent (executor_capped_size cfg total_cost intent)
               :: o.results,
             o.total_cost,
             submission_entry cfg intent (executor_capped_size cfg total_cost intent)
               ++ o.submissions⟩
        | .rejected =>
          if cfg.max_batch_cost ≤ total_cost then
            ⟨[step_result cfg submit calls intent (executor_capped_size cfg total_cost intent)],
             total_cost,
             submission_entry cfg intent (executor_capped_size cfg total_cost intent)⟩
          else if cfg.max_consecutive_misses ≤ misses then
            ⟨[step_result cfg submit calls intent (executor_capped_size cfg total_cost intent)],
             total_cost,
             submission_entry cfg intent (executor_capped_size cfg total_cost intent)⟩
          else
            let o := execute_batch_aux cfg submit rest (calls + 1) total_cost misses
            ⟨step_result cfg submit calls intent (executor_capped_size cfg total_cost intent)
               :: o.results,
             o.total_cost,
             submission_entry cfg intent (executor_capped_size cfg total_cost intent)
               ++ o.submissions⟩

/-- executor.rs lines 121-242, `OrderExecutor::execute_batch`. -/
def execute_batch (cfg : ExecutorConfig) (submit : SubmitOracle)
    (intents : List OrderIntent) : BatchOut :=
  if intents.isEmpty then ⟨[], 0, []⟩ else execute_batch_aux cfg submit intents 0 0 0

/-- Total realized cost of the `Filled` results of a batch. -/
def filled_cost (results : List ExecutionResult) : ℚ :=
  (results.map (fun r =>
    if r.status = FillStatus.filled then r.filled_size * r.filled_price else 0)).sum

-- ── api.rs : place_fok_buy ─────────────────────────────────────────────

/-- api.rs lines 240-244: is an error from `post_order` network-ambiguous? -/
def api_err_is_network (e : String) : Bool :=
  let s := e.toLower
  str_contains s "timeout" || str_contains s "timed out" || str_contains s "connection" ||
  str_contains s "connect" || str_contains s "broken pipe" || str_contains s "reset"

/-- The CLOB response `client.post_order` deserializes (the fields
`place_fok_buy` reads). -/
structure PostOrderResponse where
  success : Bool
  order_id : String
  status : String
deriving DecidableEq

/-- api.rs lines 237-263: how `place_fok_buy` maps the outcome of
`client.post_order` to its own `Result<Option<OrderResponse>>`. -/
def place_fok_buy_outcome (post : Except String PostOrderResponse) :
    Except String (Option OrderResponse) :=
  match post with
  | .error e =>
    if api_err_is_network e then
      .error ("FOK buy network error (order may be placed): " ++ e)
    else .ok none
  | .ok resp =>
    if resp.success = false then .ok none
    else .ok (some ⟨some resp.order_id, resp.status,
      some ("FOK buy filled. Order ID: " ++ resp.order_id)⟩)

/-- The fixed substrings the API layer tests for (api.rs lines 241-243). -/
def api_network_needles : List String :=
  ["timeout", "timed out", "connection", "connect", "broken pipe", "reset"]

/-- The fixed substrings the executor layer tests for
(executor.rs lines 296-298). -/
def exec_network_needles : List String := ["network", "timeout", "connection"]

-- ── strategy.rs : post-close sweep ─────────────────────────────────────

/-- One ask level of an orderbook (models.rs `OrderSummary`: the sweep parses
the decimal price/size strings to numbers; here they are `ℚ` directly). -/
structure Ask where
  price : ℚ
  size : ℚ
deriving DecidableEq

/-- config.rs `StrategyConfig` (the fields the sweep logic reads; `symbols`
is carried separately where needed). -/
structure StrategyConfig where
  simulation_mode : Bool
  sweep_enabled : Bool
  sweep_max_price : ℚ
  sweep_min_price : ℚ
  sweep_timeout_secs : ℕ
  sweep_order_size : String
  sweep_inter_order_delay_ms : ℕ
  sweep_min_margin_pct : ℚ
  max_sweep_cost : ℚ
deriving DecidableEq

/-- config.rs defaults for `StrategyConfig`. -/
def StrategyConfig.default_config : StrategyConfig :=
  ⟨false, false, 999/1000, 1/100, 30, "100", 50, 1/10000, 500⟩

/-- strategy.rs lines 236-244: the eligible asks of one sweep pass — filter to
`sweep_min_price <= p <= sweep_max_price`, then stable-sort most expensive
first (`sort_by(|a, b| b.price.cmp(&a.price))`). -/
def eligible_asks (cfg : StrategyConfig) (asks : List Ask) : List Ask :=
  (asks.filter (fun a =>
    decide (cfg.sweep_min_price ≤ a.price) && decide (a.price ≤ cfg.sweep_max_price))).mergeSort
    (fun a b => decide (b.price ≤ a.price))

/-- strategy.rs lines 272-281: dynamic sizing of one sweep order — match the
ask size, capped by remaining budget, rounded down to 2 decimals. -/
def sweep_dynamic_size (cfg : StrategyConfig) (total_cost : ℚ) (ask : Ask) : ℚ :=
  floor2 (min ask.size
    (if 0 < ask.price then (cfg.max_sweep_cost - total_cost) / ask.price else 0))

/-- Oracle for the sweep's direct `api.place_fok_buy` calls: call index and
(price, size) to the API outcome (the token is fixed for a sweep). -/
def SweepOracle : Type := ℕ → ℚ × ℚ → Except String (Option OrderResponse)

/-- Outcome of one inner sweep pass (`for ask in &eligible_asks`):
submissions as (call index, price, size), updated totals, whether anything
filled, the call index of a network-ambiguous error if one occurred, and the
next call index. -/
structure PassOut where
  submissions : List (ℕ × ℚ × ℚ)
  total_cost : ℚ
  total_orders : ℕ
  total_shares : ℚ
  filled_any : Bool
  err_call : Option ℕ
  calls : ℕ
deriving DecidableEq

/-- strategy.rs lines 259-321, the inner `for ask in &eligible_asks` loop of
`sweep_stale_asks`, in the case where the sweep timeout has not yet elapsed
(the case the claims quantify over).  On `Err` from `place_fok_buy` the loop
`break`s — note this exits only this inner loop. -/
def sweep_pass (cfg : StrategyConfig) (submit : SweepOracle) :
    List Ask → ℕ → ℚ → ℕ → ℚ → Bool → PassOut
  | [], calls, cost, orders, shares, fa => ⟨[], cost, orders, shares, fa, none, calls⟩
  | ask :: rest, calls, cost, orders, shares, fa =>
    if cfg.max_sweep_cost ≤ cost then ⟨[], cost, orders, shares, fa, none, calls⟩
    else if sweep_dynamic_size cfg cost ask < 1/100 then
      sweep_pass cfg submit rest calls cost orders shares fa
    else
      match submit calls (ask.price, sweep_dynamic_size cfg cost ask) with
      | .ok (some _) =>
        let o := sweep_pass cfg submit rest (calls + 1)
          (cost + sweep_dynamic_size cfg cost ask * ask.price) (orders + 1)
          (shares + sweep_dynamic_size cfg cost ask) true
        ⟨(calls, ask.price, sweep_dynamic_size cfg cost ask) :: o.submissions,
         o.total_cost, o.total_orders, o.total_shares, o.filled_any, o.err_call, o.calls⟩
      | .ok none =>
        let o := sweep_pass cfg submit rest (calls + 1) cost orders shares fa
        ⟨(calls, ask.price, sweep_dynamic_size cfg cost ask) :: o.submissions,
         o.total_cost, o.total_orders, o.total_shares, o.filled_any, o.err_call, o.calls⟩
      | .error _ =>
        ⟨[(calls, ask.price, sweep_dynamic_size cfg cost ask)],
         cost, orders, shares, fa, some calls, calls + 1⟩

/-- Observable outcome of the whole sweep loop. -/
structure SweepOut where
  submissions : List (ℕ × ℚ × ℚ)
  total_cost : ℚ
  total_orders : ℕ
  total_shares : ℚ
  err_calls : List ℕ
  calls : ℕ
deriving DecidableEq

/-- strategy.rs lines 213-336, the outer `while sweep_start.elapsed() <
timeout` loop of `sweep_stale_asks`.  One list entry per pass supplies the
orderbook asks that pass reads (WS mirror / REST); the list running out models
the timeout elapsing.  Faithfully to the source, a pass that hit a network
error does NOT stop the outer loop: only `filled_any` / empty-pass counting /
budget decide whether another pass runs. -/
def sweep_run (cfg : StrategyConfig) (submit : SweepOracle) :
    List (List Ask) → ℕ → ℚ → ℕ → ℚ → ℕ → SweepOut
  | [], calls, cost, orders, shares, _ => ⟨[], cost, orders, shares, [], calls⟩
  | asks :: rest_passes, calls, cost, orders, shares, empties =>
    if cfg.max_sweep_cost ≤ cost then ⟨[], cost, orders, shares, [], calls⟩
    else if (eligible_asks cfg asks).isEmpty then
      if 3 ≤ empties + 1 then ⟨[], cost, orders, shares, [], calls⟩
      else sweep_run cfg submit rest_passes calls cost orders shares (empties + 1)
    else
      let p := sweep_pass cfg submit (eligible_asks cfg asks) calls cost orders shares false
      if p.filled_any then
        let o := sweep_run cfg submit rest_passes p.calls p.total_cost p.total_orders
          p.total_shares 0
        ⟨p.submissions ++ o.submissions, o.total_cost, o.total_orders, o.total_shares,
         p.err_call.toList ++ o.err_calls, o.calls⟩
      else if 3 ≤ empties + 1 then
        ⟨p.submissions, p.total_cost, p.total_orders, p.total_shares,
         p.err_call.toList, p.calls⟩
      else
        let o := sweep_run cfg submit rest_passes p.calls p.total_cost p.total_orders
          p.total_shares (empties + 1)
        ⟨p.submissions ++ o.submissions, o.total_cost, o.total_orders, o.total_shares,
         p.err_call.toList ++ o.err_calls, o.calls⟩

-- ── strategy.rs : winner determination ─────────────────────────────────

inductive Winner where
  | up
  | down
deriving DecidableEq

/-- strategy.rs lines 139-197: given the cached latest RTDS price (value and
timestamp in ms), decide whether the round is rejected (`none`) or which
side won and which token to sweep.  The `is_nan`/`is_infinite` disjuncts are
vacuous over `ℚ`; `age_secs = (now_ms - ts) / 1000` uses Rust's truncating
`i64` division (`Int.tdiv`). -/
def sweep_winner_decision (cfg : StrategyConfig) (latest_price : ℚ) (now_ms ts : ℤ)
    (price_to_beat : ℚ) (m5_up m5_down : String) : Option (Winner × String) :=
  if latest_price ≤ 0 ∨ latest_price < 1/1000 ∨ 1000000 < latest_price then none
  else if price_to_beat ≤ 0 ∨ price_to_beat < 1/1000 ∨ 1000000 < price_to_beat then none
  else if (cfg.sweep_timeout_secs : ℤ) < Int.tdiv (now_ms - ts) 1000 then none
  else if latest_price - price_to_beat = 0 then none
  else if |latest_price - price_to_beat| < cfg.sweep_min_margin_pct * price_to_beat then none
  else if 0 < latest_price - price_to_beat then some (.up, m5_up)
  else some (.down, m5_down)

/-- The same decision written the way the spec states it: one rejection
disjunction, otherwise the winner by the sign of `diff`. -/
def spec_winner_decision (cfg : StrategyConfig) (latest_price : ℚ) (now_ms ts : ℤ)
    (price_to_beat : ℚ) (m5_up m5_down : String) : Option (Winner × String) :=
  if latest_price ≤ 0 ∨ latest_price < 1/1000 ∨ 1000000 < latest_price ∨
      price_to_beat ≤ 0 ∨ price_to_beat < 1/1000 ∨ 1000000 < price_to_beat ∨
      (cfg.sweep_timeout_secs : ℤ) < Int.tdiv (now_ms - ts) 1000 ∨
      latest_price - price_to_beat = 0 ∨
      |latest_price - price_to_beat| < cfg.sweep_min_margin_pct * price_to_beat then none
  else if 0 < latest_price - price_to_beat then some (.up, m5_up)
  else some (.down, m5_down)

-- ── discovery.rs : price-to-beat from the market question ──────────────

/-- Digit run to a natural number. -/
def digits_to_nat (cs : List Char) : ℕ :=
  cs.foldl (fun a c => a * 10 + (c.toNat - ('0').toNat)) 0

/-- Rust `str::parse::<f64>` restricted to the alphabet the caller feeds it
(digits and dots): at most one dot, at least one digit; the value is exact,
as `f64` is for the integral thresholds involved. -/
def parse_decimal (cs : List Char) : Option ℚ :=
  match cs.splitOn '.' with
  | [ip] => if ip.isEmpty then none else some ((digits_to_nat ip : ℚ))
  | [ip, fp] =>
    if ip.isEmpty && fp.isEmpty then none
    else some ((digits_to_nat ip : ℚ) + (digits_to_nat fp : ℚ) / (10 : ℚ) ^ fp.length)
  | _ => none

/-- Index of the first occurrence of `pat` as a contiguous sublist
(Rust `str::find(&str)`, character-level — exact for the ASCII questions
involved). -/
def first_sub_idx (pat : List Char) : List Char → Option ℕ
  | [] => if pat.isEmpty then some 0 else none
  | c :: rest =>
    if pat.isPrefixOf (c :: rest) then some 0 else (first_sub_idx pat rest).map (· + 1)

/-- discovery.rs lines 60-84, `parse_price_to_beat_from_question`: locate
"above " (case-insensitive) or '$', then read the following number, dropping
commas. -/
def parse_price_to_beat_from_question (question : String) : Option ℚ :=
  let qc := question.data
  let lower := qc.map Char.toLower
  match (first_sub_idx "above ".data lower).or (lower.findIdx? (fun c => c == '$')) with
  | none => none
  | some idx =>
    let after := qc.drop idx
    let num_start :=
      match after.findIdx? (fun c => c == '$' || c.isDigit) with
      | some i => if after.getD i ' ' == '$' then i + 1 else i
      | none => 0
    let num_str := ((after.drop num_start).takeWhile
      (fun c => c.isDigit || c == '.' || c == ',')).filter (fun c => c != ',')
    if num_str.isEmpty then none else parse_decimal num_str

/-- The Gamma market fields discovery reads (api.rs `MarketDetails` subset). -/
structure Market where
  condition_id : String
  question : String
  active : Bool
  closed : Bool
deriving DecidableEq

/-- discovery.rs lines 116-130, `MarketDiscovery::get_5m_market`, as a
function of the fetched market (`none` models a fetch error): returns the
condition id and the price-to-beat parsed from the question, if any. -/
def get_5m_market (fetched : Option Market) : Option (String × Option ℚ) :=
  match fetched with
  | none => none
  | some m =>
    if ¬ m.active ∨ m.closed then none
    else some (m.condition_id, parse_price_to_beat_from_question m.question)

/-- Outcome of one iteration of `wait_for_5m_market_and_price`
(strategy.rs lines 56-89): either sleep-and-retry (`wait`) or return the
market and a price-to-beat (`proceed`). -/
inductive WaitOutcome where
  | wait
  | proceed (cid : String) (price_to_beat : ℚ)
deriving DecidableEq

/-- strategy.rs lines 56-89, one iteration of the
`wait_for_5m_market_and_price` loop: the parsed price-to-beat that
`get_5m_market` returns is discarded (`Some((cid, _)) => cid`); if the RTDS
cache holds no capture for the period, the iteration waits. -/
def wait_iteration (fetched : Option Market) (cached : Option ℚ) : WaitOutcome :=
  match get_5m_market fetched with
  | none => .wait
  | some (cid, _) =>
    match cached with
    | none => .wait
    | some p => .proceed cid p

-- ── rtds.rs : Chainlink price ingestion ────────────────────────────────

/-- One deserialized `crypto_prices_chainlink` payload (rtds.rs
`ChainlinkPayload`): symbol string, timestamp in ms, price. -/
structure Sample where
  symbol : String
  timestamp : ℤ
  value : ℚ
deriving DecidableEq

/-- rtds.rs lines 74-81, `payload_symbol_to_key`: "btc/usd" -> "btc". -/
def payload_symbol_to_key (s : String) : Option String :=
  let t := s.trim.toLower
  match t.data.findIdx? (fun c => c == '/') with
  | some i => some (String.mk (t.data.take i))
  | none => some t

/-- Association-list lookup (first binding wins), the view of a `HashMap`
that the claims need. -/
def alist_lookup {α β : Type} [DecidableEq α] (k : α) : List (α × β) → Option β
  | [] => none
  | (k', v) :: t => if k' = k then some v else alist_lookup k t

/-- `HashMap::insert`: replace any existing binding. -/
def alist_insert {α β : Type} [DecidableEq α] (k : α) (v : β) (l : List (α × β)) :
    List (α × β) :=
  (k, v) :: l.filter (fun p => decide (p.1 ≠ k))

/-- The two caches the ingestion loop writes (rtds.rs `PriceCacheMulti`
flattened to (symbol, period) keys, and `LatestPriceCache`). -/
structure RtdsState where
  latest : List (String × (ℚ × ℤ))
  cache5 : List ((String × ℤ) × ℚ)
deriving DecidableEq

/-- rtds.rs lines 130-151: processing of one `crypto_prices_chainlink`
message.  `periodOf` abstracts `period_start_et_unix_for_timestamp` (the ET
calendar arithmetic); `FEED_TS_CAPTURE_WINDOW_SECS = 2`.  The
check-then-insert runs under one `write()` guard in the source, which the
atomic step mirrors. -/
def rtds_step (periodOf : ℤ → ℤ) (symbol_set : List String) (st : RtdsState)
    (p : Sample) : RtdsState :=
  match payload_symbol_to_key p.symbol with
  | none => st
  | some key =>
    if key ∈ symbol_set then
      let latest' := alist_insert key (p.value, p.timestamp) st.latest
      let ts_sec := Int.tdiv p.timestamp 1000
      if periodOf ts_sec ≤ ts_sec ∧ ts_sec < periodOf ts_sec + 2 then
        match alist_lookup (key, periodOf ts_sec) st.cache5 with
        | some _ => ⟨latest', st.cache5⟩
        | none => ⟨latest', ((key, periodOf ts_sec), p.value) :: st.cache5⟩
      else ⟨latest', st.cache5⟩
    else st

/-- The whole ingestion loop over a stream of samples. -/
def rtds_run (periodOf : ℤ → ℤ) (symbol_set : List String) (st : RtdsState)
    (samples : List Sample) : RtdsState :=
  samples.foldl (rtds_step periodOf symbol_set) st

/-- Spec side: does sample `p` qualify to set the price-to-beat of
`(sym, period)` — right symbol, subscribed, feed timestamp (in seconds) in
`[period, period + 2)` for that period? -/
def capture_value (periodOf : ℤ → ℤ) (symbol_set : List String) (sym : String)
    (period : ℤ) (p : Sample) : Option ℚ :=
  if payload_symbol_to_key p.symbol = some sym ∧ sym ∈ symbol_set ∧
      periodOf (Int.tdiv p.timestamp 1000) = period ∧
      period ≤ Int.tdiv p.timestamp 1000 ∧ Int.tdiv p.timestamp 1000 < period + 2
  then some p.value else none

-- ── concrete inputs for the closed theorems ────────────────────────────

/-- The executor defaults with `live := true`. -/
def exec_cfg_live : ExecutorConfig := ⟨500, 999/1000, 1/100, 50, 3, true⟩

/-- An oracle whose every call reports "FOK not fillable". -/
def ok_none_submit : SubmitOracle := fun _ _ _ => .ok none

/-- The same for the sweep's call shape. -/
def ok_none_sweep_submit : SweepOracle := fun _ _ => .ok none

/-- Sweep oracle for the C2 run: call 1 dies with a network-ambiguous error,
every other call fills. -/
def sweep_submit_net_err : SweepOracle := fun n _ =>
  if n = 1 then .error "connection reset by peer"
  else .ok (some ⟨some "oid", "matched", none⟩)

/-- Order books seen by the two passes of the C2 run. -/
def c2_passes : List (List Ask) := [[⟨99/100, 10⟩, ⟨1/2, 5⟩], [⟨1/2, 5⟩]]

/-- The `OrderIntent` corresponding to one sweep FOK buy (claim C5). -/
def corresponding_intent (token : String) (ask : Ask) : OrderIntent :=
  ⟨token, .buy, ask.price, ask.size, .fok, "sweep", ""⟩

/-- The executor configuration matching a sweep configuration: same budget,
the executor's own defaults for its remaining knobs. -/
def corresponding_exec_cfg (cfg : StrategyConfig) : ExecutorConfig :=
  ⟨cfg.max_sweep_cost, 999/1000, 1/100, cfg.sweep_inter_order_delay_ms, 3, true⟩

/-- Four identical cheap asks (C5 counterexample input). -/
def c5_asks : List Ask := [⟨1/2, 1⟩, ⟨1/2, 1⟩, ⟨1/2, 1⟩, ⟨1/2, 1⟩]

/-- The corresponding intents for `c5_asks`. -/
def c5_intents : List OrderIntent := c5_asks.map (corresponding_intent "tok")

/-- A market question with a parseable threshold (C7). -/
def q_btc : String := "Will Bitcoin be above $97,500 at 3pm ET?"

/-- A live, open market carrying that question. -/
def market_btc : Market := ⟨"cond-btc", q_btc, true, false⟩

/-- A concrete valid intent (witness input). -/
def c8_intent : OrderIntent := ⟨"tok", Side.buy, 1/2, 10, IntentOrderType.fok, "sweep", "r"⟩

/-- An oracle whose every call fails with a clean (non-network) API rejection. -/
def insufficient_submit : SubmitOracle := fun _ _ _ => .error "insufficient balance"

-- ── helper lemmas ──────────────────────────────────────────────────────

theorem floor2_le (x : ℚ) : floor2 x ≤ x := by
  unfold floor2
  rw [div_le_iff₀ (by norm_num : (0:ℚ) < 100)]
  exact Int.floor_le (x * 100)

theorem validate_none_facts {cfg : ExecutorConfig} {intent : OrderIntent} {c : ℚ}
    (h : validate cfg intent c = none) :
    0 < intent.price ∧ 0 < intent.size ∧ intent.price ≤ cfg.max_price ∧
    cfg.min_size ≤ intent.size ∧ c < cfg.max_batch_cost := by
  unfold validate at h
  split_ifs at h with h1 h2 h3 h4 h5 h6 h7 h8
  exact ⟨not_le.mp h1, not_le.mp h2, not_lt.mp h3, not_lt.mp h4, not_le.mp h5⟩

theorem execute_live_intent (intent : OrderIntent) (actual : ℚ)
    (r : Except String (Option OrderResponse)) : (execute_live intent actual r).intent = intent := by
  rcases r with e | o
  · rfl
  · rcases o with _ | rsp <;> rfl

theorem step_result_intent (cfg : ExecutorConfig) (submit : SubmitOracle) (calls : ℕ)
    (intent : OrderIntent) (actual : ℚ) :
    (step_result cfg submit calls intent actual).intent = intent := by
  by_cases hl : cfg.live <;> simp [step_result, hl, execute_live_intent, execute_paper]

theorem execute_live_filled {intent : OrderIntent} {actual : ℚ}
    {r : Except String (Option OrderResponse)}
    (h : (execute_live intent actual r).status = FillStatus.filled) :
    (execute_live intent actual r).filled_size = actual ∧
    (execute_live intent actual r).filled_price = intent.price := by
  rcases r with e | o
  · simp only [execute_live] at h
    split at h <;> simp_all
  · rcases o with _ | rsp
    · simp [execute_live] at h
    · exact ⟨rfl, rfl⟩

theorem step_result_filled_fields {cfg : ExecutorConfig} {submit : SubmitOracle} {calls : ℕ}
    {intent : OrderIntent} {actual : ℚ}
    (h : (step_result cfg submit calls intent actual).status = FillStatus.filled) :
    (step_result cfg submit calls intent actual).filled_size = actual ∧
    (step_result cfg submit calls intent actual).filled_price = intent.price := by
  by_cases hl : cfg.live
  · simp only [step_result, hl, if_true] at h ⊢
    exact execute_live_filled h
  · simp only [step_result, hl, if_false, execute_paper]
    exact ⟨rfl, rfl⟩

theorem executor_capped_size_mul_le (cfg : ExecutorConfig) (intent : OrderIntent) (total : ℚ)
    (hp : 0 < intent.price) :
    executor_capped_size cfg total intent * intent.price ≤ cfg.max_batch_cost - total := by
  unfold executor_capped_size
  rw [if_pos hp]
  have h1 : floor2 (min intent.size ((cfg.max_batch_cost - total) / intent.price)) ≤
      (cfg.max_batch_cost - total) / intent.price :=
    le_trans (floor2_le _) (min_le_right _ _)
  calc floor2 (min intent.size ((cfg.max_batch_cost - total) / intent.price)) * intent.price
      ≤ ((cfg.max_batch_cost - total) / intent.price) * intent.price :=
        mul_le_mul_of_nonneg_right h1 (le_of_lt hp)
    _ = cfg.max_batch_cost - total := div_mul_cancel₀ _ (ne_of_gt hp)

theorem filled_cost_cons (r : ExecutionResult) (rs : List ExecutionResult) :
    filled_cost (r :: rs) =
      (if r.status = FillStatus.filled then r.filled_size * r.filled_price else 0) +
        filled_cost rs := by
  simp [filled_cost]

theorem execute_batch_aux_cost (cfg : ExecutorConfig) (submit : SubmitOracle) :
    ∀ (intents : List OrderIntent) (calls : ℕ) (total : ℚ) (misses : ℕ),
      total ≤ cfg.max_batch_cost →
      (execute_batch_aux cfg submit intents calls total misses).total_cost ≤ cfg.max_batch_cost ∧
      (execute_batch_aux cfg submit intents calls total misses).total_cost =
        total + filled_cost (execute_batch_aux cfg submit intents calls total misses).results := by
  intro intents
  induction intents with
  | nil =>
    intro calls total misses ht
    simp only [execute_batch_aux, filled_cost, List.map_nil, List.sum_nil]
    exact ⟨ht, by ring⟩
  | cons intent rest ih =>
    intro calls total misses ht
    simp only [execute_batch_aux]
    cases hv : validate cfg intent total with
    | some r =>
      dsimp only
      obtain ⟨ih1, ih2⟩ := ih calls total misses ht
      refine ⟨ih1, ?_⟩
      rw [filled_cost_cons]
      simp only [rejected_result]
      rw [ih2]
      norm_num
    | none =>
      obtain ⟨hp, hszpos, hpmax, hszmin, hcmax⟩ := validate_none_facts hv
      have hcap := executor_capped_size_mul_le cfg intent total hp
      dsimp only
      by_cases hsz : executor_capped_size cfg total intent < cfg.min_size
      · rw [if_pos hsz]
        obtain ⟨ih1, ih2⟩ := ih calls total misses ht
        refine ⟨ih1, ?_⟩
        rw [filled_cost_cons]
        simp only [rejected_result]
        rw [ih2]
        norm_num
      · rw [if_neg hsz]
        cases hst : (step_result cfg submit calls intent
            (executor_capped_size cfg total intent)).status with
        | filled =>
          dsimp only
          obtain ⟨hfs, hfp⟩ := step_result_filled_fields hst
          have hcost : total +
              (step_result cfg submit calls intent
                (executor_capped_size cfg total intent)).filled_size *
              (step_result cfg submit calls intent
                (executor_capped_size cfg total intent)).filled_price ≤ cfg.max_batch_cost := by
            rw [hfs, hfp]
            linarith
          by_cases hb : cfg.max_batch_cost ≤ total +
              (step_result cfg submit calls intent
                (executor_capped_size cfg total intent)).filled_size *
              (step_result cfg submit calls intent
                (executor_capped_size cfg total intent)).filled_price
          · rw [if_pos hb]
            refine ⟨hcost, ?_⟩
            rw [filled_cost_cons, hst]
            simp [filled_cost]
          · rw [if_neg hb]
            by_cases hm : cfg.max_consecutive_misses ≤ 0
            · rw [if_pos hm]
              refine ⟨hcost, ?_⟩
              rw [filled_cost_cons, hst]
              simp [filled_cost]
            · rw [if_neg hm]
              obtain ⟨ih1, ih2⟩ := ih (calls + 1) _ 0 hcost
              refine ⟨ih1, ?_⟩
              rw [filled_cost_cons, hst]
              simp only [eq_self_iff_true, if_true]
              rw [ih2]
              linarith
        | notFillable =>
          dsimp only
          by_cases hb : cfg.max_batch_cost ≤ total
          · rw [if_pos hb]
            refine ⟨ht, ?_⟩
            rw [filled_cost_cons, hst]
            simp [filled_cost]
          · rw [if_neg hb]
            by_cases hm : cfg.max_consecutive_misses ≤ misses + 1
            · rw [if_pos hm]
              refine ⟨ht, ?_⟩
              rw [filled_cost_cons, hst]
              simp [filled_cost]
            · rw [if_neg hm]
              obtain ⟨ih1, ih2⟩ := ih (calls + 1) total (misses + 1) ht
              refine ⟨ih1, ?_⟩
              rw [filled_cost_cons, hst]
              simp
              linarith [ih2]
        | rejected =>
          dsimp only
          by_cases hb : cfg.max_batch_cost ≤ total
          · rw [if_pos hb]
            refine ⟨ht, ?_⟩
            rw [filled_cost_cons, hst]
            simp [filled_cost]
          · rw [if_neg hb]
            by_cases hm : cfg.max_consecutive_misses ≤ misses
            · rw [if_pos hm]
              refine ⟨ht, ?_⟩
              rw [filled_cost_cons, hst]
              simp [filled_cost]
            · rw [if_neg hm]
              obtain ⟨ih1, ih2⟩ := ih (calls + 1) total misses ht
              refine ⟨ih1, ?_⟩
              rw [filled_cost_cons, hst]
              simp
              linarith [ih2]
        | networkError =>
          dsimp only
          refine ⟨ht, ?_⟩
          rw [filled_cost_cons, hst]
          simp [filled_cost]

/-- Claim C1: for every batch of intents and every executor configuration with
`max_batch_cost > 0`, the sum over the `Filled` results of
`filled_size * filled_price` returned by `execute_batch` never exceeds
`max_batch_cost`. -/
theorem c1_filled_cost_le_max_batch_cost (cfg : ExecutorConfig) (submit : SubmitOracle)
    (intents : List OrderIntent) (h : 0 < cfg.max_batch_cost) :
    filled_cost (execute_batch cfg submit intents).results ≤ cfg.max_batch_cost := by
  unfold execute_batch
  split
  · simpa [filled_cost] using le_of_lt h
  · obtain ⟨h1, h2⟩ := execute_batch_aux_cost cfg submit intents 0 0 0 (le_of_lt h)
    linarith

theorem all_dropLast_cons (p : ExecutionResult → Bool) (r : ExecutionResult)
    (rs : List ExecutionResult) (hr : p r = true) (h : rs.dropLast.all p = true) :
    (r :: rs).dropLast.all p = true := by
  cases rs with
  | nil => simp
  | cons a as => simp_all [List.dropLast]

theorem execute_batch_aux_prefix (cfg : ExecutorConfig) (submit : SubmitOracle) :
    ∀ (intents : List OrderIntent) (calls : ℕ) (total : ℚ) (misses : ℕ),
      (execute_batch_aux cfg submit intents calls total misses).results.map
        (fun r => r.intent) =
        intents.take (execute_batch_aux cfg submit intents calls total misses).results.length ∧
      ((execute_batch_aux cfg submit intents calls total misses).results.dropLast.all
        (fun r => decide (r.status ≠ FillStatus.networkError)) = true) := by
  intro intents
  induction intents with
  | nil =>
    intro calls total misses
    simp [execute_batch_aux]
  | cons intent rest ih =>
    intro calls total misses
    simp only [execute_batch_aux]
    cases hv : validate cfg intent total with
    | some r =>
      dsimp only
      obtain ⟨ih1, ih2⟩ := ih calls total misses
      constructor
      · simp [rejected_result, ih1, List.take_succ_cons]
      · exact all_dropLast_cons _ _ _ (by simp [rejected_result]) ih2
    | none =>
      dsimp only
      by_cases hsz : executor_capped_size cfg total intent < cfg.min_size
      · rw [if_pos hsz]
        obtain ⟨ih1, ih2⟩ := ih calls total misses
        constructor
        · simp [rejected_result, ih1, List.take_succ_cons]
        · exact all_dropLast_cons _ _ _ (by simp [rejected_result]) ih2
      · rw [if_neg hsz]
        cases hst : (step_result cfg submit calls intent
            (executor_capped_size cfg total intent)).status with
        | filled =>
          dsimp only
          split_ifs
          · constructor
            · simp [step_result_intent, List.take_succ_cons]
            · simp
          · constructor
            · simp [step_result_intent, List.take_succ_cons]
            · simp
          · obtain ⟨ih1, ih2⟩ := ih (calls + 1)
              (total +
                (step_result cfg submit calls intent
                  (executor_capped_size cfg total intent)).filled_size *
                (step_result cfg submit calls intent
                  (executor_capped_size cfg total intent)).filled_price) 0
            constructor
            · simp [step_result_intent, ih1, List.take_succ_cons]
            · exact all_dropLast_cons _ _ _ (by simp [hst]) ih2
        | notFillable =>
          dsimp only
          split_ifs
          · constructor
            · simp [step_result_intent, List.take_succ_cons]
            · simp
          · constructor
            · simp [step_result_intent, List.take_succ_cons]
            · simp
          · obtain ⟨ih1, ih2⟩ := ih (calls + 1) total (misses + 1)
            constructor
            · simp [step_result_intent, ih1, List.take_succ_cons]
            · exact all_dropLast_cons _ _ _ (by simp [hst]) ih2
        | rejected =>
          dsimp only
          split_ifs
          · constructor
            · simp [step_result_intent, List.take_succ_cons]
            · simp
          · constructor
            · simp [step_result_intent, List.take_succ_cons]
            · simp
          · obtain ⟨ih1, ih2⟩ := ih (calls + 1) total misses
            constructor
            · simp [step_result_intent, ih1, List.take_succ_cons]
            · exact all_dropLast_cons _ _ _ (by simp [hst]) ih2
        | networkError =>
          dsimp only
          constructor
          · simp [step_result_intent, List.take_succ_cons]
          · simp

/-- Claim C3: `execute_batch` halts on the first `NetworkError` result: the
returned results are aligned one-to-one with the prefix of the processed
intents, and no result other than (possibly) the last has status
`NetworkError` — so nothing after the failing intent is validated, submitted
or given a result. -/
theorem c3_network_error_ends_batch (cfg : ExecutorConfig) (submit : SubmitOracle)
    (intents : List OrderIntent) :
    (execute_batch cfg submit intents).results.map (fun r => r.intent) =
      intents.take (execute_batch cfg submit intents).results.length ∧
    ((execute_batch cfg submit intents).results.dropLast.all
      (fun r => decide (r.status ≠ FillStatus.networkError)) = true) := by
  unfold execute_batch
  split
  · simp
  · exact execute_batch_aux_prefix cfg submit intents 0 0 0

/-- Claim C8: for an intent that passes validation, the capped size equals
`min(intent.size, (max_batch_cost - accumulated_cost) / intent.price)` floored
to 2 decimals; if that is below `min_size` the intent yields a `Rejected`
result with no API call and no change to the accumulated cost, and otherwise
(live) the very next submission carries exactly that size. -/
theorem c8_capped_size_and_skip (cfg : ExecutorConfig) (submit : SubmitOracle)
    (intent : OrderIntent) (rest : List OrderIntent) (calls : ℕ) (total : ℚ) (misses : ℕ)
    (hv : validate cfg intent total = none) :
    executor_capped_size cfg total intent =
      floor2 (min intent.size ((cfg.max_batch_cost - total) / intent.price)) ∧
    (executor_capped_size cfg total intent < cfg.min_size →
      execute_batch_aux cfg submit (intent :: rest) calls total misses =
        ⟨rejected_result intent ::
            (execute_batch_aux cfg submit rest calls total misses).results,
          (execute_batch_aux cfg submit rest calls total misses).total_cost,
          (execute_batch_aux cfg submit rest calls total misses).submissions⟩) ∧
    (¬ executor_capped_size cfg total intent < cfg.min_size → cfg.live = true →
      (execute_batch_aux cfg submit (intent :: rest) calls total misses).submissions.head? =
        some (intent, executor_capped_size cfg total intent)) := by
  obtain ⟨hp, -, -, -, -⟩ := validate_none_facts hv
  refine ⟨?_, ?_, ?_⟩
  · unfold executor_capped_size
    rw [if_pos hp]
  · intro hsz
    simp only [execute_batch_aux, hv]
    rw [if_pos hsz]
  · intro hsz hl
    simp only [execute_batch_aux, hv]
    rw [if_neg hsz]
    cases hst : (step_result cfg submit calls intent
        (executor_capped_size cfg total intent)).status with
    | filled =>
      dsimp only
      split_ifs <;> simp [submission_entry, hl]
    | notFillable =>
      dsimp only
      split_ifs <;> simp [submission_entry, hl]
    | rejected =>
      dsimp only
      split_ifs <;> simp [submission_entry, hl]
    | networkError =>
      dsimp only
      simp [submission_entry, hl]

/-- Witness for C8 at a concrete configuration, intent and oracle. -/
theorem c8_witness :
    executor_capped_size exec_cfg_live 0 c8_intent =
      floor2 (min c8_intent.size ((exec_cfg_live.max_batch_cost - 0) / c8_intent.price)) ∧
    (executor_capped_size exec_cfg_live 0 c8_intent < exec_cfg_live.min_size →
      execute_batch_aux exec_cfg_live ok_none_submit [c8_intent] 0 0 0 =
        ⟨rejected_result c8_intent ::
            (execute_batch_aux exec_cfg_live ok_none_submit [] 0 0 0).results,
          (execute_batch_aux exec_cfg_live ok_none_submit [] 0 0 0).total_cost,
          (execute_batch_aux exec_cfg_live ok_none_submit [] 0 0 0).submissions⟩) ∧
    (¬ executor_capped_size exec_cfg_live 0 c8_intent < exec_cfg_live.min_size →
      exec_cfg_live.live = true →
      (execute_batch_aux exec_cfg_live ok_none_submit [c8_intent] 0 0 0).submissions.head? =
        some (c8_intent, executor_capped_size exec_cfg_live 0 c8_intent)) :=
  c8_capped_size_and_skip exec_cfg_live ok_none_submit c8_intent [] 0 0 0
    (by with_unfolding_all rfl)

/-- Witness for C1 at a concrete configuration, batch and oracle. -/
theorem c1_witness :
    0 < (exec_cfg_live.max_batch_cost) ∧
    filled_cost (execute_batch exec_cfg_live ok_none_submit
      [⟨"tok", Side.buy, 1/2, 10, IntentOrderType.fok, "s", "r"⟩]).results ≤
      exec_cfg_live.max_batch_cost :=
  ⟨by norm_num [exec_cfg_live],
   c1_filled_cost_le_max_batch_cost exec_cfg_live ok_none_submit
     [⟨"tok", Side.buy, 1/2, 10, IntentOrderType.fok, "s", "r"⟩]
     (by norm_num [exec_cfg_live])⟩

/-- Claim C9: on each sweep pass the candidate asks are exactly the asks of
the snapshot whose price lies in `[sweep_min_price, sweep_max_price]`, sorted
in descending price order; in particular, for asks
`[(0.99,10), (0.50,5), (0.01,100)]` and range `[0.01, 0.999]` the eligible
order is `[0.99, 0.50, 0.01]`. -/
theorem c9_eligible_asks_sorted_desc :
    (∀ (cfg : StrategyConfig) (asks : List Ask),
      (eligible_asks cfg asks).Perm (asks.filter (fun a =>
        decide (cfg.sweep_min_price ≤ a.price) && decide (a.price ≤ cfg.sweep_max_price))) ∧
      (eligible_asks cfg asks).Pairwise (fun a b => b.price ≤ a.price)) ∧
    eligible_asks StrategyConfig.default_config
      [⟨99/100, 10⟩, ⟨1/2, 5⟩, ⟨1/100, 100⟩] =
      [⟨99/100, 10⟩, ⟨1/2, 5⟩, ⟨1/100, 100⟩] := by
  constructor
  · intro cfg asks
    constructor
    · exact List.mergeSort_perm _ _
    · have h := @List.sorted_mergeSort Ask (fun a b : Ask => decide (b.price ≤ a.price))
        (fun a b c h1 h2 => by
          simp only [decide_eq_true_eq] at *
          exact le_trans h2 h1)
        (fun a b => by
          simp only [Bool.or_eq_true, decide_eq_true_eq]
          exact le_total b.price a.price)
        (asks.filter (fun a =>
          decide (cfg.sweep_min_price ≤ a.price) && decide (a.price ≤ cfg.sweep_max_price)))
      exact List.Pairwise.imp (fun hab => by simpa using hab) h
  · with_unfolding_all rfl

set_option maxHeartbeats 1600000 in
/-- Claim C6: the post-close winner decision rejects the round exactly when
the spec's disjunction of guards holds (value or price-to-beat out of sane
bounds, stale price, zero diff, or sub-margin diff), and otherwise picks Up
with the Up token when `diff > 0` and Down with the Down token when
`diff < 0`; with price_to_beat 100.00, latest 100.10 and margin_pct 0.0001
the winner is Up. -/
theorem c6_winner_decision_matches_spec :
    (∀ (cfg : StrategyConfig) (latest_price : ℚ) (now_ms ts : ℤ) (price_to_beat : ℚ)
        (m5_up m5_down : String),
      sweep_winner_decision cfg latest_price now_ms ts price_to_beat m5_up m5_down =
        spec_winner_decision cfg latest_price now_ms ts price_to_beat m5_up m5_down) ∧
    sweep_winner_decision StrategyConfig.default_config (1001/10) 0 0 100 "UP" "DOWN" =
      some (Winner.up, "UP") := by
  constructor
  · intro cfg latest now ts ptb up down
    unfold sweep_winner_decision spec_winner_decision
    split_ifs <;> first | rfl | tauto
  · with_unfolding_all rfl

/-- Claim C7 counterexample: with no feed capture for the period and a market
whose question parses to a threshold of 97500, the coordinator's wait loop
waits rather than proceeding with the parsed value. -/
theorem c7_counterexample :
    parse_price_to_beat_from_question q_btc = some 97500 ∧
    wait_iteration (some market_btc) none = WaitOutcome.wait ∧
    WaitOutcome.wait ≠ WaitOutcome.proceed "cond-btc" 97500 := by
  refine ⟨?_, ?_, ?_⟩
  · with_unfolding_all rfl
  · with_unfolding_all rfl
  · simp

/-- Claim C7 amended: discovery does parse a numeric threshold from the
market's question (and returns it from `get_5m_market`), but the coordinator
discards it: whenever the feed has produced no capture, the wait-loop
iteration waits — for every fetched market — instead of proceeding with the
parsed fallback. -/
theorem c7_waits_instead_of_fallback :
    (∀ m : Option Market, wait_iteration m none = WaitOutcome.wait) ∧
    parse_price_to_beat_from_question q_btc = some 97500 ∧
    get_5m_market (some market_btc) = some ("cond-btc", some 97500) := by
  refine ⟨?_, ?_, ?_⟩
  · intro m
    unfold wait_iteration
    cases h : get_5m_market m with
    | none => rfl
    | some pr => cases pr; rfl
  · with_unfolding_all rfl
  · with_unfolding_all rfl

/-- Claim C5 counterexample: four identical fillable-looking asks, an API that
answers "not fillable" every time, matching budgets — the sweep submits all 4
orders while `execute_batch` on the corresponding intents stops after 3
consecutive misses.  The sweep is not routed through the executor. -/
theorem c5_counterexample :
    (sweep_pass StrategyConfig.default_config ok_none_sweep_submit c5_asks
      0 0 0 0 false).submissions.length = 4 ∧
    (execute_batch (corresponding_exec_cfg StrategyConfig.default_config) ok_none_submit
      c5_intents).submissions.length = 3 := by
  constructor
  · with_unfolding_all rfl
  · with_unfolding_all rfl

/-- Claim C5 amended: the sweep's per-order sizing and minimum-size skip rule
coincide with the executor's budget-cap sizing on the corresponding intent
(same budget; the executor's default `min_size` equals the sweep's hard-coded
0.01), but sweep orders are submitted directly via the API, so the executor's
other batch rules (e.g. consecutive-miss stop) do not govern them. -/
theorem c5_sizing_coincides :
    (∀ (cfg : StrategyConfig) (total : ℚ) (ask : Ask) (token : String),
      sweep_dynamic_size cfg total ask =
        executor_capped_size (corresponding_exec_cfg cfg) total
          (corresponding_intent token ask)) ∧
    (∀ (cfg : StrategyConfig) (total : ℚ) (ask : Ask) (token : String),
      (sweep_dynamic_size cfg total ask < 1/100) =
        (executor_capped_size (corresponding_exec_cfg cfg) total
            (corresponding_intent token ask) <
          (corresponding_exec_cfg cfg).min_size)) := by
  constructor
  · intro cfg total ask token
    rfl
  · intro cfg total ask token
    rfl

/-- Claim C2: (code bug) after the network-ambiguous failure at call index 1,
the sweep's outer loop keeps going — call index 2 is submitted on the next
pass, with budget and passes remaining.  The inner `break` halts only the
current pass, not the sweep. -/
theorem c2_sweep_submits_after_network_error :
    (sweep_run StrategyConfig.default_config sweep_submit_net_err c2_passes
      0 0 0 0 0).err_calls = [1] ∧
    (sweep_run StrategyConfig.default_config sweep_submit_net_err c2_passes
      0 0 0 0 0).submissions.map (fun s => s.1) = [0, 1, 2] := by
  constructor
  · with_unfolding_all rfl
  · with_unfolding_all rfl

theorem rtds_step_lookup (periodOf : ℤ → ℤ) (symbol_set : List String) (st : RtdsState)
    (p : Sample) (sym : String) (period : ℤ) :
    alist_lookup (sym, period) (rtds_step periodOf symbol_set st p).cache5 =
      (alist_lookup (sym, period) st.cache5).or
        (capture_value periodOf symbol_set sym period p) := by
  unfold capture_value
  by_cases hc : payload_symbol_to_key p.symbol = some sym ∧ sym ∈ symbol_set ∧
      periodOf (Int.tdiv p.timestamp 1000) = period ∧
      period ≤ Int.tdiv p.timestamp 1000 ∧ Int.tdiv p.timestamp 1000 < period + 2
  · rw [if_pos hc]
    obtain ⟨hk, hmem, hper, hlo, hhi⟩ := hc
    unfold rtds_step
    rw [hk]
    dsimp only
    rw [if_pos hmem]
    have hwin : periodOf (Int.tdiv p.timestamp 1000) ≤ Int.tdiv p.timestamp 1000 ∧
        Int.tdiv p.timestamp 1000 < periodOf (Int.tdiv p.timestamp 1000) + 2 := by
      constructor
      · rw [hper]; exact hlo
      · rw [hper]; exact hhi
    rw [if_pos hwin]
    cases hl : alist_lookup (sym, periodOf (Int.tdiv p.timestamp 1000)) st.cache5 with
    | some v =>
      dsimp only
      rw [hper] at hl
      rw [hl]
      rfl
    | none =>
      dsimp only
      rw [hper] at hl
      rw [hper]
      simp [alist_lookup, hl]
  · rw [if_neg hc, Option.or_none]
    unfold rtds_step
    cases hk : payload_symbol_to_key p.symbol with
    | none => rfl
    | some key =>
      dsimp only
      by_cases hmem : key ∈ symbol_set
      · rw [if_pos hmem]
        by_cases hwin : periodOf (Int.tdiv p.timestamp 1000) ≤ Int.tdiv p.timestamp 1000 ∧
            Int.tdiv p.timestamp 1000 < periodOf (Int.tdiv p.timestamp 1000) + 2
        · rw [if_pos hwin]
          cases hl : alist_lookup (key, periodOf (Int.tdiv p.timestamp 1000)) st.cache5 with
          | some v => rfl
          | none =>
            dsimp only
            have hne : ((key, periodOf (Int.tdiv p.timestamp 1000)) : String × ℤ) ≠
                (sym, period) := by
              intro heq
              have e1 : key = sym := congrArg Prod.fst heq
              have e2 : periodOf (Int.tdiv p.timestamp 1000) = period :=
                congrArg Prod.snd heq
              refine hc ⟨by rw [hk, e1], e1 ▸ hmem, e2, ?_, ?_⟩
              · rw [← e2]; exact hwin.1
              · rw [← e2]; exact hwin.2
            simp [alist_lookup, hne]
        · rw [if_neg hwin]
      · rw [if_neg hmem]

/-- Claim C4: for every `(symbol, period)` the price-to-beat cache holds, after
the whole run, exactly the value of the FIRST sample whose (normalized,
subscribed) symbol matches and whose feed timestamp in seconds
(`timestamp_ms / 1000`, truncating) lies in `[period_start, period_start + 2)`
for that period — any existing entry is never overwritten, so the entry is set
at most once and later qualifying samples are ignored.  (The source does the
check and insert under one `write()` lock acquisition; the atomic `rtds_step`
mirrors that.) -/
theorem c4_price_to_beat_set_once :
    (∀ (periodOf : ℤ → ℤ) (symbol_set : List String) (st : RtdsState)
        (samples : List Sample) (sym : String) (period : ℤ),
      alist_lookup (sym, period) (rtds_run periodOf symbol_set st samples).cache5 =
        (alist_lookup (sym, period) st.cache5).or
          (samples.findSome? (capture_value periodOf symbol_set sym period))) ∧
    (∀ (periodOf : ℤ → ℤ) (symbol_set : List String) (samples : List Sample)
        (sym : String) (period : ℤ),
      alist_lookup (sym, period) (rtds_run periodOf symbol_set ⟨[], []⟩ samples).cache5 =
        samples.findSome? (capture_value periodOf symbol_set sym period)) := by
  have main : ∀ (periodOf : ℤ → ℤ) (symbol_set : List String) (samples : List Sample)
      (st : RtdsState) (sym : String) (period : ℤ),
      alist_lookup (sym, period) (rtds_run periodOf symbol_set st samples).cache5 =
        (alist_lookup (sym, period) st.cache5).or
          (samples.findSome? (capture_value periodOf symbol_set sym period)) := by
    intro periodOf symbol_set samples
    induction samples with
    | nil =>
      intro st sym period
      simp [rtds_run]
    | cons p rest ih =>
      intro st sym period
      have hstep : rtds_run periodOf symbol_set st (p :: rest) =
          rtds_run periodOf symbol_set (rtds_step periodOf symbol_set st p) rest := rfl
      rw [hstep, ih, rtds_step_lookup]
      cases hcv : capture_value periodOf symbol_set sym period p with
      | none =>
        simp [List.findSome?_cons, hcv]
      | some v =>
        simp only [List.findSome?_cons, hcv, Option.or_none]
        cases alist_lookup (sym, period) st.cache5 <;> rfl
  exact ⟨fun po ss st s pe => main po ss s st pe,
    fun po ss s sym pe => by rw [main po ss s ⟨[], []⟩ sym pe]; rfl⟩

theorem api_err_is_network_eq (e : String) :
    api_err_is_network e = api_network_needles.any (fun n => str_contains e.toLower n) := by
  simp [api_err_is_network, api_network_needles, Bool.or_assoc]

theorem exec_err_is_network_eq (m : String) :
    exec_err_is_network m = exec_network_needles.any (fun n => str_contains m.toLower n) := by
  simp [exec_err_is_network, exec_network_needles, Bool.or_assoc]

/-- Claim C10: a failed submission is network-ambiguous exactly when the
lower-cased message contains one of the fixed substrings — the API layer's
set for `place_fok_buy` (whose other submission errors become `Ok(None)`),
the executor layer's set for `execute_live` (whose other errors become
`Rejected`); and a clean rejection halts nothing: the batch goes on to the
next intent, and the sweep pass goes on to the next ask after an `Ok(None)`. -/
theorem c10_network_error_classification :
    (∀ e : String,
      place_fok_buy_outcome (.error e) =
        if api_network_needles.any (fun n => str_contains e.toLower n) then
          Except.error ("FOK buy network error (order may be placed): " ++ e)
        else Except.ok none) ∧
    (∀ (intent : OrderIntent) (sz : ℚ) (m : String),
      (execute_live intent sz (.error m)).status =
        if exec_network_needles.any (fun n => str_contains m.toLower n) then
          FillStatus.networkError
        else FillStatus.rejected) ∧
    (∀ (cfg : ExecutorConfig) (submit : SubmitOracle) (intent : OrderIntent)
        (rest : List OrderIntent) (calls : ℕ) (total : ℚ) (misses : ℕ) (m : String),
      cfg.live = true →
      validate cfg intent total = none →
      ¬ executor_capped_size cfg total intent < cfg.min_size →
      submit calls intent (executor_capped_size cfg total intent) = .error m →
      exec_network_needles.any (fun n => str_contains m.toLower n) = false →
      misses < cfg.max_consecutive_misses →
      (execute_batch_aux cfg submit (intent :: rest) calls total misses).results =
        (⟨intent, FillStatus.rejected, 0, 0, none⟩ : ExecutionResult) ::
          (execute_batch_aux cfg submit rest (calls + 1) total misses).results) ∧
    (∀ (cfg : StrategyConfig) (submit : SweepOracle) (ask : Ask) (rest : List Ask)
        (calls : ℕ) (cost : ℚ) (orders : ℕ) (shares : ℚ) (fa : Bool),
      ¬ cfg.max_sweep_cost ≤ cost →
      ¬ sweep_dynamic_size cfg cost ask < 1/100 →
      submit calls (ask.price, sweep_dynamic_size cfg cost ask) = .ok none →
      sweep_pass cfg submit (ask :: rest) calls cost orders shares fa =
        ⟨(calls, ask.price, sweep_dynamic_size cfg cost ask) ::
            (sweep_pass cfg submit rest (calls + 1) cost orders shares fa).submissions,
          (sweep_pass cfg submit rest (calls + 1) cost orders shares fa).total_cost,
          (sweep_pass cfg submit rest (calls + 1) cost orders shares fa).total_orders,
          (sweep_pass cfg submit rest (calls + 1) cost orders shares fa).total_shares,
          (sweep_pass cfg submit rest (calls + 1) cost orders shares fa).filled_any,
          (sweep_pass cfg submit rest (calls + 1) cost orders shares fa).err_call,
          (sweep_pass cfg submit rest (calls + 1) cost orders shares fa).calls⟩) := by
  refine ⟨?_, ?_, ?_, ?_⟩
  · intro e
    simp only [place_fok_buy_outcome]
    rw [api_err_is_network_eq]
  · intro intent sz m
    simp only [execute_live]
    rw [exec_err_is_network_eq]
  · intro cfg submit intent rest calls total misses m hl hv hsz hsub hm hmiss
    have hfacts := validate_none_facts hv
    have hnet : exec_err_is_network m = false := by
      rw [exec_err_is_network_eq]; exact hm
    have hres : step_result cfg submit calls intent (executor_capped_size cfg total intent) =
        ⟨intent, FillStatus.rejected, 0, 0, none⟩ := by
      simp [step_result, hl, hsub, execute_live, hnet]
    simp only [execute_batch_aux, hv]
    rw [if_neg hsz, hres]
    dsimp only
    rw [if_neg (not_le.mpr hfacts.2.2.2.2), if_neg (not_le.mpr hmiss)]
  · intro cfg submit ask rest calls cost orders shares fa hcost hsz hsub
    simp only [sweep_pass]
    rw [if_neg hcost, if_neg hsz, hsub]

/-- Witness for C10's continuation conjuncts: a clean "insufficient balance"
rejection, and the batch keeps going. -/
theorem c10_witness :
    (execute_batch_aux exec_cfg_live insufficient_submit [c8_intent] 0 0 0).results =
      (⟨c8_intent, FillStatus.rejected, 0, 0, none⟩ : ExecutionResult) ::
        (execute_batch_aux exec_cfg_live insufficient_submit [] 1 0 0).results := by
  have hcap : executor_capped_size exec_cfg_live 0 c8_intent = 10 := by
    with_unfolding_all rfl
  exact c10_network_error_classification.2.2.1 exec_cfg_live insufficient_submit c8_intent []
    0 0 0 "insufficient balance" rfl (by with_unfolding_all rfl)
    (by rw [hcap]; norm_num [exec_cfg_live]) rfl
    (by with_unfolding_all rfl) (by norm_num [exec_cfg_live])

end Polybot
